import Mathlib

/-!
Verification development for the call-in demo's core logic: the speech
normalizer (`speech-parser.ts` and the helper resolvers in `retell.ts`),
the session store (`session.ts`), and the rate limiter (`session.ts`).

Transcripts are modelled as `List Char`.  The JavaScript regular-expression
replacements used by the source are modelled by explicit scanners that
reproduce the regex semantics actually exercised by the source patterns:
word-boundary (`\b`) anchored, case-insensitive, global replacement with
first-alternative preference and left-to-right non-overlapping scanning.
-/

/-- JS `\w` word characters: `[A-Za-z0-9_]`. -/
def isWordChar (c : Char) : Bool := c.isAlpha || c.isDigit || c == '_'

/-- JS `\s` whitespace class (ASCII fragment). -/
def jsWs (c : Char) : Bool := c.isWhitespace

/-- Drop leading whitespace. -/
def dropWs : List Char → List Char
  | [] => []
  | c :: cs => if jsWs c then dropWs cs else c :: cs

/-- JS `String.prototype.trim`: drop whitespace from both ends. -/
def trimL (s : List Char) : List Char := ((dropWs ((dropWs s).reverse)).reverse)

/-- JS `String.prototype.toLowerCase` (ASCII fragment). -/
def toLowerL (s : List Char) : List Char := s.map Char.toLower

/-- Case-insensitive literal match of pattern `p` at the head of `s`;
returns the last matched text character and the rest of `s`.
Patterns are lowercase; text is compared through `Char.toLower`
(the source regexes all carry the `i` flag). -/
def litMatchL : List Char → List Char → Char → Option (Char × List Char)
  | [], s, last => some (last, s)
  | _ :: _, [], _ => none
  | p :: ps, c :: cs, _ => if c.toLower == p then litMatchL ps cs c else none

/-- JS `\b` between the last matched character and the rest of the input:
a boundary exists iff word-ness changes (end of input counts as non-word). -/
def endBoundary (lastIsWord : Bool) : List Char → Bool
  | [] => lastIsWord
  | d :: _ => lastIsWord != isWordChar d

/-- Try one regex alternative (a literal, `\b`-terminated) at the head of `s`. -/
def tryAlt (alt : List Char) (s : List Char) : Option (Char × List Char) :=
  match alt with
  | [] => none
  | _ :: _ =>
    match litMatchL alt s ' ' with
    | some (last, rest) =>
        if endBoundary (isWordChar last) rest then some (last, rest) else none
    | none => none

/-- Try a list of alternatives in order (JS alternation preference). -/
def tryAlts (alts : List (List Char)) (s : List Char) : Option (Char × List Char) :=
  match alts with
  | [] => none
  | a :: rest =>
    match tryAlt a s with
    | some v => some v
    | none => tryAlts rest s

/-- Global, word-boundary anchored, case-insensitive replacement of any of
`alts` (tried in order) by `r`, scanning left to right: the model of
`text.replace(/\b(alt1|alt2|…)\b/gi, r)` for literal alternatives.
`prev` records whether the previous text character was a word character
(`false` at the start of the string).  The scan is driven by a fuel
counter so that it is structurally recursive (and hence computes by
kernel reduction); every step consumes at least one input character
(`tryAlts_length`), so fuel equal to the input length never runs out. -/
def scanReplaceAltsF (alts : List (List Char)) (r : List Char) :
    Nat → Bool → List Char → List Char
  | 0, _, s => s
  | _ + 1, _, [] => []
  | fuel + 1, prev, c :: cs =>
    if prev != isWordChar c then
      match tryAlts alts (c :: cs) with
      | some (last, rest) => r ++ scanReplaceAltsF alts r fuel (isWordChar last) rest
      | none => c :: scanReplaceAltsF alts r fuel (isWordChar c) cs
    else c :: scanReplaceAltsF alts r fuel (isWordChar c) cs

/-- `text.replace(/\b(alt1|alt2|…)\b/gi, r)`. -/
def scanReplaceAlts (alts : List (List Char)) (r : List Char) (s : List Char) :
    List Char :=
  scanReplaceAltsF alts r s.length false s

/-- Case-insensitive literal prefix match, returning only the rest. -/
def litRest : List Char → List Char → Option (List Char)
  | [], s => some s
  | _ :: _, [] => none
  | p :: ps, c :: cs => if c.toLower == p then litRest ps cs else none

/-- Greedy `\s+`: requires at least one whitespace character. -/
def wsPlus : List Char → Option (List Char)
  | [] => none
  | c :: cs => if jsWs c then some (dropWs cs) else none

/-- Closing `\b` for the pairing-code filler regex; every alternative of that
regex ends in the word character `s`, hence the boundary holds exactly when
the rest starts with a non-word character or is empty. -/
def endAfterS : List Char → Bool
  | [] => true
  | d :: _ => !isWordChar d

/-- Keep a candidate match only if the closing `\b` holds. -/
def guardEnd : Option (List Char) → Option (List Char)
  | some r => if endAfterS r then some r else none
  | none => none

/-- The second group of `/\b(the\s+)?(code\s+is|my\s+code\s+is|it's|its|is)\b/gi`
from `parseSpokenCode`: the alternatives in source order. -/
def tryCodeAlts (t : List Char) : Option (List Char) :=
  match guardEnd (((litRest "code".data t).bind wsPlus).bind (litRest "is".data)) with
  | some r => some r
  | none =>
  match guardEnd (((((litRest "my".data t).bind wsPlus).bind
      (litRest "code".data)).bind wsPlus).bind (litRest "is".data)) with
  | some r => some r
  | none =>
  match guardEnd (litRest "it's".data t) with
  | some r => some r
  | none =>
  match guardEnd (litRest "its".data t) with
  | some r => some r
  | none => guardEnd (litRest "is".data t)

/-- One attempted match of the whole pairing-code filler regex
`/\b(the\s+)?(code\s+is|my\s+code\s+is|it's|its|is)\b/gi` at the current
position (the opening `\b` is checked by the caller).  The optional
`(the\s+)?` group is tried greedily first and dropped on backtracking,
as the JS engine does. -/
def tryCodeFiller (s : List Char) : Option (List Char) :=
  match (litRest "the".data s).bind wsPlus with
  | some t =>
    match tryCodeAlts t with
    | some r => some r
    | none => tryCodeAlts s
  | none => tryCodeAlts s

/-- Global replacement (by the empty string) of the pairing-code filler regex.
Every alternative of the regex ends in the word character `s`, therefore the
previous-character flag after a match is `true`.  Fuel-driven as in
`scanReplaceAltsF`; `tryCodeFiller_length` shows fuel equal to the input
length suffices. -/
def codeFillerScanF : Nat → Bool → List Char → List Char
  | 0, _, s => s
  | _ + 1, _, [] => []
  | fuel + 1, prev, c :: cs =>
    if prev != isWordChar c then
      match tryCodeFiller (c :: cs) with
      | some rest => codeFillerScanF fuel true rest
      | none => c :: codeFillerScanF fuel (isWordChar c) cs
    else c :: codeFillerScanF fuel (isWordChar c) cs

/-- `text.replace(/\b(the\s+)?(code\s+is|my\s+code\s+is|it's|its|is)\b/gi, '')`. -/
def codeFillerStrip (s : List Char) : List Char :=
  codeFillerScanF s.length false s

/-- The model of `result.replace(/(\d)0\s*(\d)/g, (_, tens, ones) => tens + ones)`
from `parseCompoundNumbers`: merge a digit followed by `0`, optional
whitespace and another digit into the two outer digits.  Fuel-driven
(each step consumes at least one character, and `dropWs` never grows the
input, so fuel equal to the input length suffices). -/
def mergeTensF : Nat → List Char → List Char
  | 0, s => s
  | _ + 1, [] => []
  | fuel + 1, c :: '0' :: rest =>
    if c.isDigit then
      match dropWs rest with
      | d :: rest2 =>
        if d.isDigit then c :: d :: mergeTensF fuel rest2
        else c :: mergeTensF fuel ('0' :: rest)
      | [] => c :: mergeTensF fuel ('0' :: rest)
    else c :: mergeTensF fuel ('0' :: rest)
  | fuel + 1, c :: cs => c :: mergeTensF fuel cs

/-- `result.replace(/(\d)0\s*(\d)/g, (_, tens, ones) => tens + ones)`. -/
def mergeTens (s : List Char) : List Char := mergeTensF s.length s

/-- Substring test, the model of JS `String.prototype.includes`. -/
def startsWithL : List Char → List Char → Bool
  | [], _ => true
  | _ :: _, [] => false
  | p :: ps, c :: cs => p == c && startsWithL ps cs

/-- `isInfixL p s` holds iff `p` occurs contiguously inside `s`. -/
def isInfixL (p : List Char) : List Char → Bool
  | [] => match p with
    | [] => true
    | _ :: _ => false
  | c :: cs => startsWithL p (c :: cs) || isInfixL p cs

/-!
## Speech normalizer (`src/speech-parser.ts`)
-/

/-- The `digitPatterns` table of `speech-parser.ts`, in source order: each
entry is applied as its own global whole-word replacement, one after the
other. -/
def digitPatterns : List (List Char × List Char) :=
  [("zero".data, "0".data), ("oh".data, "0".data),
   ("one".data, "1".data), ("won".data, "1".data),
   ("two".data, "2".data), ("to".data, "2".data), ("too".data, "2".data),
   ("three".data, "3".data), ("tree".data, "3".data),
   ("four".data, "4".data), ("for".data, "4".data), ("fore".data, "4".data),
   ("five".data, "5".data), ("six".data, "6".data), ("seven".data, "7".data),
   ("eight".data, "8".data), ("ate".data, "8".data),
   ("nine".data, "9".data), ("niner".data, "9".data)]

/-- Sequentially apply each `digitPatterns` replacement (the source's
`for (const [pattern, digit] of digitPatterns) converted = converted.replace(…)`). -/
def translateDigits (s : List Char) : List Char :=
  digitPatterns.foldl (fun t p => scanReplaceAlts [p.1] p.2 t) s

/-- The common filler words removed by `parseSpokenCode` and
`parsePhoneNumber`: `/\b(um|uh|like|so|yeah|okay|ok)\b/gi`. -/
def commonFillers : List (List Char) :=
  ["um".data, "uh".data, "like".data, "so".data, "yeah".data,
   "okay".data, "ok".data]

/-- The `normalized` intermediate of `parseSpokenCode`: trim, lower-case,
remove the code filler phrases, remove the common fillers, trim. -/
def spokenNormalize (speech : List Char) : List Char :=
  trimL (scanReplaceAlts commonFillers []
    (codeFillerStrip (toLowerL (trimL speech))))

/-- Digits left after direct extraction (`normalized.replace(/\D/g, '')`). -/
def directDigitsOf (speech : List Char) : List Char :=
  (spokenNormalize speech).filter Char.isDigit

/-- Digits left after the digit-word translation stage of `parseSpokenCode`. -/
def spokenDigits (speech : List Char) : List Char :=
  (translateDigits (spokenNormalize speech)).filter Char.isDigit

/-- The `compounds` table of `parseCompoundNumbers`, in source
(insertion) order. -/
def compounds : List (List Char × List Char) :=
  [("ten".data, "10".data), ("eleven".data, "11".data),
   ("twelve".data, "12".data), ("thirteen".data, "13".data),
   ("fourteen".data, "14".data), ("fifteen".data, "15".data),
   ("sixteen".data, "16".data), ("seventeen".data, "17".data),
   ("eighteen".data, "18".data), ("nineteen".data, "19".data),
   ("twenty".data, "20".data), ("thirty".data, "30".data),
   ("forty".data, "40".data), ("fifty".data, "50".data),
   ("sixty".data, "60".data), ("seventy".data, "70".data),
   ("eighty".data, "80".data), ("ninety".data, "90".data)]

/-- `parseCompoundNumbers` from `speech-parser.ts`: replace tens/teens words
by their 2-digit numerals, merge `X0 Y` digit groups, extract digits, and
return them when at least 4 remain. -/
def parseCompoundNumbers (text : List Char) : Option (List Char) :=
  let result := compounds.foldl (fun t p => scanReplaceAlts [p.1] p.2 t) text
  let digits := (mergeTens result).filter Char.isDigit
  if 4 ≤ digits.length then some digits else none

/-- The compound stage as used by `parseSpokenCode`: its result is accepted
only when exactly 4 digits were produced
(`if (compoundResult && compoundResult.length === 4)`). -/
def compound4 (text : List Char) : Option (List Char) :=
  match parseCompoundNumbers text with
  | some cr => if cr.length = 4 then some cr else none
  | none => none

/-- Result record of `parseSpokenCode` (`ParseResult` in the source; the
`success` flag is called `matched` by the spec). -/
structure ParseResult where
  success : Bool
  code : Option (List Char)
  rawInput : List Char
  normalized : Option (List Char)
deriving DecidableEq

/-- `parseSpokenCode` from `speech-parser.ts`. -/
def parseSpokenCode (speech : List Char) : ParseResult :=
  if speech.isEmpty then ⟨false, none, [], none⟩
  else
    let rawInput := trimL speech
    if (directDigitsOf speech).length = 4 then
      ⟨true, some (directDigitsOf speech), rawInput, some (directDigitsOf speech)⟩
    else if (spokenDigits speech).length = 4 then
      ⟨true, some (spokenDigits speech), rawInput, some (spokenDigits speech)⟩
    else
      match compound4 (spokenNormalize speech) with
      | some cr => ⟨true, some cr, rawInput, some cr⟩
      | none =>
        if 4 < (spokenDigits speech).length then
          ⟨true, some ((spokenDigits speech).take 4), rawInput,
           some ((spokenDigits speech).take 4)⟩
        else
          ⟨false, none, rawInput,
           if (spokenDigits speech).isEmpty then none else some (spokenDigits speech)⟩

/-- JS `String.prototype.split(/\s+/)` (on already-trimmed input it yields
the whitespace-separated words; on `""` it yields `[""]`).  Fuel-driven;
fuel equal to the input length suffices since each step consumes at least
one character. -/
def splitWsGo : Nat → List Char → List Char → List (List Char)
  | 0, acc, _ => [acc.reverse]
  | _ + 1, acc, [] => [acc.reverse]
  | fuel + 1, acc, c :: cs =>
    if jsWs c then acc.reverse :: splitWsGo fuel [] (dropWs cs)
    else splitWsGo fuel (c :: acc) cs

def splitWs (s : List Char) : List (List Char) := splitWsGo s.length [] s

/-- JS `word.charAt(0).toUpperCase() + word.slice(1).toLowerCase()`. -/
def titleWord : List Char → List Char
  | [] => []
  | c :: cs => c.toUpper :: cs.map Char.toLower

/-- `join(' ')`. -/
def joinSpace (ws : List (List Char)) : List Char := List.intercalate [' '] ws

/-- Characters kept by `name.replace(/[^a-zA-Z\s'-]/g, '')`. -/
def allowedNameChar (c : Char) : Bool :=
  c.isAlpha || c.isWhitespace || c == '\'' || c == '-'

/-- The self-introduction phrases stripped by both `sanitizeName`
implementations: `/\b(my name is|i'm|i am|it's|this is|call me)\b/gi`. -/
def nameIntroAlts : List (List Char) :=
  ["my name is".data, "i'm".data, "i am".data, "it's".data,
   "this is".data, "call me".data]

/-- The filler words stripped by `speech-parser.ts`'s `sanitizeName`:
`/\b(um|uh|like|so|yeah)\b/gi`. -/
def nameFillerAlts : List (List Char) :=
  ["um".data, "uh".data, "like".data, "so".data, "yeah".data]

/-- The title-cased, character-filtered, length-limited name produced by
`speech-parser.ts`'s `sanitizeName` before the `|| 'Caller'` fallback. -/
def processedName (speech : List Char) : List Char :=
  ((joinSpace (((splitWs (trimL (scanReplaceAlts nameFillerAlts []
    (scanReplaceAlts nameIntroAlts [] (trimL speech)))))).map titleWord)).filter
      allowedNameChar).take 100

/-- `sanitizeName` from `speech-parser.ts`.  Note the guard: a falsy
(empty) input returns the empty string, not the placeholder. -/
def sanitizeName (speech : List Char) : List Char :=
  if speech.isEmpty then []
  else if (processedName speech).isEmpty then "Caller".data
  else processedName speech

/-- The pre-fallback name of `retell.ts`'s private `sanitizeName` (that
variant strips the introduction phrases but has no filler-word pass). -/
def retellProcessedName (speech : List Char) : List Char :=
  ((joinSpace (((splitWs (trimL
    (scanReplaceAlts nameIntroAlts [] (trimL speech))))).map titleWord)).filter
      allowedNameChar).take 100

/-- `sanitizeName` from `retell.ts`: a falsy input returns `'Caller'`. -/
def retellSanitizeName (speech : List Char) : List Char :=
  if speech.isEmpty then "Caller".data
  else if (retellProcessedName speech).isEmpty then "Caller".data
  else retellProcessedName speech

/-- Ordered keyword table of `parseVerticalSelection`. -/
def verticalsTable : List (List Char × List (List Char)) :=
  [("real_estate".data,
    ["real estate".data, "realestate".data, "real-estate".data,
     "property".data, "properties".data, "realtor".data]),
   ("insurance".data,
    ["insurance".data, "insure".data, "policy".data, "policies".data]),
   ("mortgage".data,
    ["mortgage".data, "loan".data, "loans".data, "lending".data,
     "home loan".data]),
   ("other".data,
    ["other".data, "something else".data, "different".data, "none".data])]

/-- Ordered keyword table of `parsePainSelection`. -/
def painsTable : List (List Char × List (List Char)) :=
  [("spam_flags".data,
    ["spam".data, "flag".data, "flagged".data, "blocked".data,
     "scam likely".data, "spam likely".data]),
   ("awkward_delay".data,
    ["awkward".data, "delay".data, "pause".data, "waiting".data,
     "silence".data, "dead air".data]),
   ("low_answer_rates".data,
    ["answer".data, "rate".data, "rates".data, "low answer".data,
     "nobody answers".data, "pickup".data]),
   ("speed".data,
    ["speed".data, "slow".data, "fast".data, "quick".data,
     "efficiency".data, "time".data])]

/-- The nested `for`-loops shared by `parseVerticalSelection` and
`parsePainSelection`: return the first table entry (in order) one of whose
keywords is a substring of the input. -/
def lookupTable : List (List Char × List (List Char)) → List Char → Option (List Char)
  | [], _ => none
  | (key, kws) :: rest, input =>
    if kws.any (fun kw => isInfixL kw input) then some key
    else lookupTable rest input

/-- `parseVerticalSelection` from `speech-parser.ts`. -/
def parseVerticalSelection (speech : List Char) : Option (List Char) :=
  lookupTable verticalsTable (trimL (toLowerL speech))

/-- `parsePainSelection` from `speech-parser.ts`. -/
def parsePainSelection (speech : List Char) : Option (List Char) :=
  lookupTable painsTable (trimL (toLowerL speech))

/-- Result record of `parsePhoneNumber` (`PhoneParseResult` in the source). -/
structure PhoneParseResult where
  success : Bool
  number : Option (List Char)
  rawInput : List Char
deriving DecidableEq

/-- The filler phrases removed by `parsePhoneNumber`:
`/\b(my number is|my phone number is|it's|the number is|call me at)\b/gi`. -/
def phoneFillers : List (List Char) :=
  ["my number is".data, "my phone number is".data, "it's".data,
   "the number is".data, "call me at".data]

/-- Digits left after `parsePhoneNumber`'s filler-stripping and digit-word
translation pipeline. -/
def phoneDigits (speech : List Char) : List Char :=
  (translateDigits (trimL (scanReplaceAlts commonFillers []
    (scanReplaceAlts phoneFillers [] (toLowerL (trimL speech)))))).filter
      Char.isDigit

/-- `parsePhoneNumber` from `speech-parser.ts`. -/
def parsePhoneNumber (speech : List Char) : PhoneParseResult :=
  if speech.isEmpty then ⟨false, none, []⟩
  else
    let rawInput := trimL speech
    let digits := phoneDigits speech
    if digits.length = 10 then ⟨true, some ('+' :: '1' :: digits), rawInput⟩
    else if digits.length = 11 ∧ digits.head? = some '1' then
      ⟨true, some ('+' :: digits), rawInput⟩
    else if 10 < digits.length then
      ⟨true, some ('+' :: '1' :: digits.drop (digits.length - 10)), rawInput⟩
    else ⟨false, none, rawInput⟩

/-!
## Categorical resolvers and schedule classifier of `retell.ts` /
`twilio.ts`
-/

/-- `normalizeVertical` from `retell.ts`: an `if`-chain of substring tests
over the lower-cased input, falling back to `'other'`. -/
def normalizeVertical (input : List Char) : List Char :=
  let lower := toLowerL input
  if isInfixL "real estate".data lower || isInfixL "realtor".data lower ||
      isInfixL "property".data lower then "real_estate".data
  else if isInfixL "insurance".data lower || isInfixL "policy".data lower then
    "insurance".data
  else if isInfixL "mortgage".data lower || isInfixL "loan".data lower ||
      isInfixL "lending".data lower then "mortgage".data
  else "other".data

/-- `normalizePain` from `retell.ts`: an `if`-chain of substring tests over
the lower-cased input, falling back to `'other'`. -/
def normalizePain (input : List Char) : List Char :=
  let lower := toLowerL input
  if isInfixL "spam".data lower || isInfixL "flag".data lower ||
      isInfixL "blocked".data lower then "spam_flags".data
  else if isInfixL "delay".data lower || isInfixL "awkward".data lower ||
      isInfixL "pause".data lower then "awkward_delay".data
  else if isInfixL "answer".data lower || isInfixL "rate".data lower ||
      isInfixL "pickup".data lower then "low_answer_rates".data
  else if isInfixL "speed".data lower || isInfixL "slow".data lower ||
      isInfixL "fast".data lower then "speed".data
  else "other".data

/-- The affirmation tokens of `handleScheduleAppointment` in `retell.ts`. -/
def affirmationTokens : List (List Char) :=
  ["yes".data, "yeah".data, "sure".data, "okay".data, "yep".data,
   "absolutely".data, "definitely".data]

/-- The `isYes` classification of `handleScheduleAppointment` in `retell.ts`:
the lower-cased `wants_schedule` argument contains one of the seven
affirmation tokens. -/
def retellIsYes (wantsSchedule : List Char) : Bool :=
  affirmationTokens.any (fun t => isInfixL t (toLowerL wantsSchedule))

/-- The `wantsSchedule` classification of the `/twilio/schedule` route in
`twilio.ts`: an explicit disjunction over only five tokens. -/
def twilioWantsSchedule (speechResult : List Char) : Bool :=
  let response := toLowerL speechResult
  isInfixL "yes".data response || isInfixL "yeah".data response ||
    isInfixL "sure".data response || isInfixL "okay".data response ||
    isInfixL "yep".data response

/-- The five tokens actually used by the `/twilio/schedule` route. -/
def twilioTokens : List (List Char) :=
  ["yes".data, "yeah".data, "sure".data, "okay".data, "yep".data]

/-- Spec-side first-match table lookup (`parseCategory` in the spec):
the first table entry, in table order, one of whose keywords is a
substring of the input. -/
def firstMatchKey (table : List (List Char × List (List Char)))
    (input : List Char) : Option (List Char) :=
  (table.find? (fun e => e.2.any (fun kw => isInfixL kw input))).map Prod.fst

/-- The keyword table implicit in `normalizeVertical`'s `if`-chain. -/
def retellVerticalTable : List (List Char × List (List Char)) :=
  [("real_estate".data, ["real estate".data, "realtor".data, "property".data]),
   ("insurance".data, ["insurance".data, "policy".data]),
   ("mortgage".data, ["mortgage".data, "loan".data, "lending".data])]

/-- The keyword table implicit in `normalizePain`'s `if`-chain. -/
def retellPainTable : List (List Char × List (List Char)) :=
  [("spam_flags".data, ["spam".data, "flag".data, "blocked".data]),
   ("awkward_delay".data, ["delay".data, "awkward".data, "pause".data]),
   ("low_answer_rates".data, ["answer".data, "rate".data, "pickup".data]),
   ("speed".data, ["speed".data, "slow".data, "fast".data])]

/-!
## Session store (`src/session.ts`)

Persistent time is modelled in milliseconds since the epoch (`Nat`), the
Prisma store as an in-order list of records.  `findFirst` returns the
first list element satisfying the `where` clause.  Random pairing-code
draws are modelled by an explicit stream of candidate codes.
-/

inductive SessionStatus where
  | CREATED
  | PAIRED
  | ACTIVE
  | EXPIRED
deriving DecidableEq

structure SessionRec where
  id : Nat
  browserToken : List Char
  pairCode : List Char
  status : SessionStatus
  expiresAt : Nat
  activeUntil : Option Nat
  callerNumber : Option (List Char)
  callerName : Option (List Char)
  callSid : Option (List Char)
deriving DecidableEq

/-- An appended event record (the structured payload is not modelled;
only the session linkage and the type tag matter here). -/
structure EventRec where
  sessionId : Nat
  type : List Char
deriving DecidableEq

structure Store where
  sessions : List SessionRec
  events : List EventRec
deriving DecidableEq

/-- `status: { in: [CREATED, PAIRED, ACTIVE] }`. -/
def isLiveStatus : SessionStatus → Bool
  | .CREATED => true
  | .PAIRED => true
  | .ACTIVE => true
  | .EXPIRED => false

/-- The `findFirst` of `createSession`: an unexpired live session for this
browser token. -/
def findActiveByToken (now : Nat) (store : Store) (browserToken : List Char) :
    Option SessionRec :=
  store.sessions.find? (fun s =>
    s.browserToken == browserToken && isLiveStatus s.status &&
      decide (now < s.expiresAt))

/-- The collision check of `generateUniquePairCode`: the code is in use by
an unexpired live session. -/
def codeInUse (now : Nat) (store : Store) (code : List Char) : Bool :=
  (store.sessions.find? (fun s =>
    s.pairCode == code && isLiveStatus s.status &&
      decide (now < s.expiresAt))).isSome

/-- `generateUniquePairCode`: up to 100 random draws (modelled by the
`draws` stream), returning the first that does not collide; `none` models
the `Unable to generate unique pair code` error. -/
def generateUniquePairCode (now : Nat) (store : Store)
    (draws : List (List Char)) : Option (List Char) :=
  (draws.take 100).find? (fun c => !codeInUse now store c)

/-- `createSession` from `session.ts`.  `expiryMs` is
`config.session.expiryMinutes * 60 * 1000` and `newId` the fresh record
id.  The summary result is `(id, pairCode, expiresAt)`; `none` models the
code-exhaustion error. -/
def createSession (now expiryMs newId : Nat) (draws : List (List Char))
    (browserToken : List Char) (store : Store) :
    Option ((Nat × List Char × Nat) × Store) :=
  match findActiveByToken now store browserToken with
  | some existing => some ((existing.id, existing.pairCode, existing.expiresAt), store)
  | none =>
    match generateUniquePairCode now store draws with
    | some code =>
      let sess : SessionRec :=
        ⟨newId, browserToken, code, .CREATED, now + expiryMs, none, none, none, none⟩
      some ((newId, code, now + expiryMs),
            { store with sessions := store.sessions ++ [sess] })
    | none => none

/-- `findSessionByCode` from `session.ts`: only sessions in status
`CREATED` whose expiry is still in the future match. -/
def findSessionByCode (now : Nat) (store : Store) (pairCode : List Char) :
    Option SessionRec :=
  store.sessions.find? (fun s =>
    s.pairCode == pairCode && s.status == SessionStatus.CREATED &&
      decide (now < s.expiresAt))

/-- `pairSession` from `session.ts`: a Prisma `update` keyed on the id
alone — it throws (`none`) only when no record has this id, and otherwise
overwrites the record whatever its current status, then appends a
`paired` event.  `pairedExpiryMs` is
`config.session.pairedExpiryMinutes * 60 * 1000`. -/
def pairSession (now pairedExpiryMs : Nat) (store : Store) (sessionId : Nat)
    (callerNumber callerName callSid : List Char) :
    Option (SessionRec × Store) :=
  match store.sessions.find? (fun s => s.id == sessionId) with
  | none => none
  | some s0 =>
    let activeUntil := now + pairedExpiryMs
    let s1 : SessionRec :=
      { s0 with status := .PAIRED, callerNumber := some callerNumber,
                callerName := some callerName, callSid := some callSid,
                activeUntil := some activeUntil, expiresAt := activeUntil }
    some (s1, { sessions := store.sessions.map (fun s => if s.id == sessionId then s1 else s),
                events := store.events ++ [⟨sessionId, "paired".data⟩] })

/-!
## The `findSessionByCode` + `pairSession` race

Two callers A and B each run the `/code`-handler sequence
`findSessionByCode` then (on success) `pairSession`.  Each of the four
store operations is atomic; a schedule fixes their interleaving.
-/

structure CallerInfo where
  number : List Char
  name : List Char
  callSid : List Char
deriving DecidableEq

structure RaceState where
  store : Store
  aFound : Option Nat
  bFound : Option Nat
  aPaired : Bool
  bPaired : Bool
deriving DecidableEq

inductive RaceStep where
  | findA
  | pairA
  | findB
  | pairB
deriving DecidableEq

/-- One atomic store operation of the race.  A `pair` step runs only when
the same attempt's `find` step found a session (the handler returns early
otherwise). -/
def raceStep (now pairedExpiryMs : Nat) (code : List Char) (a b : CallerInfo)
    (st : RaceState) : RaceStep → RaceState
  | .findA => { st with aFound := (findSessionByCode now st.store code).map SessionRec.id }
  | .findB => { st with bFound := (findSessionByCode now st.store code).map SessionRec.id }
  | .pairA =>
    match st.aFound with
    | some sid =>
      match pairSession now pairedExpiryMs st.store sid a.number a.name a.callSid with
      | some (_, store2) => { st with store := store2, aPaired := true }
      | none => st
    | none => st
  | .pairB =>
    match st.bFound with
    | some sid =>
      match pairSession now pairedExpiryMs st.store sid b.number b.name b.callSid with
      | some (_, store2) => { st with store := store2, bPaired := true }
      | none => st
    | none => st

/-- Run a schedule of race steps from an initial store. -/
def runRace (now pairedExpiryMs : Nat) (code : List Char) (a b : CallerInfo)
    (init : Store) (sched : List RaceStep) : RaceState :=
  sched.foldl (raceStep now pairedExpiryMs code a b) ⟨init, none, none, false, false⟩

/-!
## Rate limiter (`src/session.ts`)

The per-caller record is modelled directly (`Option RateRec` is the row
keyed by the caller's number); operations return the observable result
and the updated row.
-/

structure RateRec where
  failedAttempts : Nat
  lastAttemptAt : Nat
  lockedUntil : Option Nat
deriving DecidableEq

structure RateCheck where
  allowed : Bool
  remainingAttempts : Option Int
  lockedUntil : Option Nat
deriving DecidableEq

structure RateResult where
  locked : Bool
  lockedUntil : Option Nat
deriving DecidableEq

/-- `checkRateLimit` from `session.ts`.  `maxAttempts` is
`config.rateLimit.maxAttempts`.  The second component is the row after
the call (the expired-lockout branch performs the lazy reset write). -/
def checkRateLimit (maxAttempts : Nat) (now : Nat) (row : Option RateRec) :
    RateCheck × Option RateRec :=
  match row with
  | none => (⟨true, some (maxAttempts : Int), none⟩, none)
  | some r =>
    match r.lockedUntil with
    | some lu =>
      if now < lu then (⟨false, none, some lu⟩, some r)
      else
        (⟨true, some (maxAttempts : Int), none⟩,
         some { r with failedAttempts := 0, lockedUntil := none })
    | none =>
      let remaining : Int := (maxAttempts : Int) - (r.failedAttempts : Int)
      (⟨0 < remaining, some (max 0 remaining), none⟩, some r)

/-- `recordFailedAttempt` from `session.ts`: upsert (create with one
failure, or increment), then set the lockout when the counter reaches
`maxAttempts`.  `lockoutSeconds` is `config.rateLimit.lockoutSeconds`. -/
def recordFailedAttempt (maxAttempts lockoutSeconds : Nat) (now : Nat)
    (row : Option RateRec) : RateResult × Option RateRec :=
  let r : RateRec :=
    match row with
    | none => ⟨1, now, none⟩
    | some r0 => ⟨r0.failedAttempts + 1, now, r0.lockedUntil⟩
  if maxAttempts ≤ r.failedAttempts then
    let lu := now + lockoutSeconds * 1000
    (⟨true, some lu⟩, some { r with lockedUntil := some lu })
  else (⟨false, none⟩, some r)

/-- The row after a sequence of `recordFailedAttempt` calls at the given
times. -/
def afterFailedAttempts (maxAttempts lockoutSeconds : Nat) (ts : List Nat)
    (row : Option RateRec) : Option RateRec :=
  ts.foldl (fun st t => (recordFailedAttempt maxAttempts lockoutSeconds t st).2) row

/-!
## Lemmas and claim theorems
-/

theorem dropWs_length : ∀ s : List Char, (dropWs s).length ≤ s.length := by
  intro s
  induction s with
  | nil => simp [dropWs]
  | cons c cs ih =>
    simp only [dropWs]
    split
    · exact Nat.le_succ_of_le ih
    · simp

theorem litMatchL_length :
    ∀ (p s : List Char) (d l : Char) (r : List Char),
      litMatchL p s d = some (l, r) → r.length + p.length = s.length := by
  intro p
  induction p with
  | nil =>
    intro s d l r h
    simp [litMatchL] at h
    simp [h.2]
  | cons q qs ih =>
    intro s d l r h
    cases s with
    | nil => simp [litMatchL] at h
    | cons c cs =>
      simp only [litMatchL] at h
      split at h
      · have := ih cs c l r h
        simp only [List.length_cons]
        omega
      · exact absurd h (by simp)

theorem tryAlt_length {alt s : List Char} {l : Char} {r : List Char}
    (h : tryAlt alt s = some (l, r)) : r.length < s.length := by
  unfold tryAlt at h
  cases alt with
  | nil => simp at h
  | cons a as =>
    cases h2 : litMatchL (a :: as) s ' ' with
    | none => rw [h2] at h; simp at h
    | some v =>
      obtain ⟨last, rest⟩ := v
      rw [h2] at h
      simp only at h
      split at h
      · have hl := litMatchL_length (a :: as) s ' ' last rest h2
        simp only [Option.some.injEq, Prod.mk.injEq] at h
        rw [← h.2]
        simp only [List.length_cons] at hl
        omega
      · simp at h

theorem tryAlts_length {alts : List (List Char)} {s : List Char} {l : Char}
    {r : List Char} (h : tryAlts alts s = some (l, r)) : r.length < s.length := by
  induction alts with
  | nil => simp [tryAlts] at h
  | cons a rest ih =>
    simp only [tryAlts] at h
    cases h2 : tryAlt a s with
    | none => rw [h2] at h; exact ih h
    | some v =>
      rw [h2] at h
      obtain ⟨l2, r2⟩ := v
      simp only [Option.some.injEq, Prod.mk.injEq] at h
      have := tryAlt_length h2
      rw [← h.2]
      exact this

theorem litRest_length :
    ∀ (p s r : List Char), litRest p s = some r → r.length + p.length = s.length := by
  intro p
  induction p with
  | nil => intro s r h; simp [litRest] at h; simp [h]
  | cons q qs ih =>
    intro s r h
    cases s with
    | nil => simp [litRest] at h
    | cons c cs =>
      simp only [litRest] at h
      split at h
      · have := ih cs r h
        simp only [List.length_cons]
        omega
      · exact absurd h (by simp)

theorem wsPlus_length : ∀ {s r : List Char}, wsPlus s = some r → r.length < s.length := by
  intro s r h
  cases s with
  | nil => simp [wsPlus] at h
  | cons c cs =>
    simp only [wsPlus] at h
    split at h
    · simp only [Option.some.injEq] at h
      rw [← h]
      exact Nat.lt_succ_of_le (dropWs_length cs)
    · simp at h

theorem guardEnd_some {o : Option (List Char)} {r : List Char}
    (h : guardEnd o = some r) : o = some r := by
  cases o with
  | none => simp [guardEnd] at h
  | some v =>
    simp only [guardEnd] at h
    split at h
    · rw [h]
    · simp at h

theorem bind_some {o : Option (List Char)} {f : List Char → Option (List Char)}
    {r : List Char} (h : o.bind f = some r) : ∃ x, o = some x ∧ f x = some r := by
  cases o with
  | none => simp at h
  | some v => exact ⟨v, rfl, h⟩

theorem tryCodeAlts_length {t r : List Char} (h : tryCodeAlts t = some r) :
    r.length < t.length := by
  unfold tryCodeAlts at h
  split at h
  case _ h1 =>
    obtain ⟨rfl⟩ := h
    obtain ⟨x1, hx1, h1b⟩ := bind_some (guardEnd_some h1)
    obtain ⟨x0, hx0, hws⟩ := bind_some hx1
    have e0 := litRest_length _ _ _ hx0
    have e1 := wsPlus_length hws
    have e2 := litRest_length _ _ _ h1b
    simp [String.data] at e0 e2
    omega
  case _ _ =>
  split at h
  case _ h1 =>
    obtain ⟨rfl⟩ := h
    obtain ⟨x3, hx3, h3b⟩ := bind_some (guardEnd_some h1)
    obtain ⟨x2, hx2, hws2⟩ := bind_some hx3
    obtain ⟨x1, hx1, h1c⟩ := bind_some hx2
    obtain ⟨x0, hx0, hws1⟩ := bind_some hx1
    have e0 := litRest_length _ _ _ hx0
    have e1 := wsPlus_length hws1
    have e2 := litRest_length _ _ _ h1c
    have e3 := wsPlus_length hws2
    have e4 := litRest_length _ _ _ h3b
    simp [String.data] at e0 e2 e4
    omega
  case _ _ =>
  split at h
  case _ h1 =>
    obtain ⟨rfl⟩ := h
    have := litRest_length _ _ _ (guardEnd_some h1)
    simp [String.data] at this
    omega
  case _ _ =>
  split at h
  case _ h1 =>
    obtain ⟨rfl⟩ := h
    have := litRest_length _ _ _ (guardEnd_some h1)
    simp [String.data] at this
    omega
  case _ _ =>
    have := litRest_length _ _ _ (guardEnd_some h)
    simp [String.data] at this
    omega

theorem tryCodeFiller_length {s r : List Char} (h : tryCodeFiller s = some r) :
    r.length < s.length := by
  unfold tryCodeFiller at h
  split at h
  case _ t ht =>
    split at h
    case _ h1 =>
      obtain ⟨rfl⟩ := h
      obtain ⟨x0, hx0, hws⟩ := bind_some ht
      have e0 := litRest_length _ _ _ hx0
      have e1 := wsPlus_length hws
      have e2 := tryCodeAlts_length h1
      omega
    case _ _ => exact tryCodeAlts_length h
  case _ _ => exact tryCodeAlts_length h

/-- The nested-loop lookup equals the spec-side first-match-in-table-order
lookup. -/
theorem lookupTable_eq_firstMatchKey
    (t : List (List Char × List (List Char))) (input : List Char) :
    lookupTable t input = firstMatchKey t input := by
  induction t with
  | nil => simp [lookupTable, firstMatchKey]
  | cons e rest ih =>
    obtain ⟨key, kws⟩ := e
    cases h : kws.any (fun kw => isInfixL kw input) with
    | true => simp [lookupTable, firstMatchKey, List.find?_cons, h]
    | false => simp [lookupTable, firstMatchKey, List.find?_cons, h, ih]

/-- C1: for the spoken forms of 4827 listed by the spec, the two
digit-word forms produce code `4827`, but the compound form
`forty eight twenty seven` produces code `4020`: `parseCompoundNumbers`
receives the text before digit-word translation, so `eight`/`seven`
remain words, the `(\d)0\s*(\d)` merge never fires, and the extracted
digits are `4020` — contradicting the spec (and the source's own comment
`// Handle compound numbers (e.g., "forty eight twenty seven" for 4827)`). -/
theorem parseSpokenCode_spoken_forms :
    parseSpokenCode "four eight two seven".data =
      ⟨true, some "4827".data, "four eight two seven".data, some "4827".data⟩ ∧
    parseSpokenCode "the code is four eight two seven".data =
      ⟨true, some "4827".data, "the code is four eight two seven".data,
       some "4827".data⟩ ∧
    parseSpokenCode "forty eight twenty seven".data =
      ⟨true, some "4020".data, "forty eight twenty seven".data,
       some "4020".data⟩ :=
  ⟨by decide, by decide, by decide⟩

/-- C4 (counterexample): `hello` matches no keyword of any table entry,
yet `normalizeVertical` returns the default key `other` rather than a
null result (`parseVerticalSelection`, by contrast, returns `none`). -/
theorem normalizeVertical_default_counterexample :
    (∀ e ∈ retellVerticalTable, ∀ kw ∈ e.2,
      isInfixL kw (toLowerL "hello".data) = false) ∧
    normalizeVertical "hello".data = "other".data ∧
    parseVerticalSelection "hello".data = none := by
  refine ⟨by decide, by decide, by decide⟩

/-- C4 (amended): the speech-parser resolvers return the canonical key of
the first table entry, in table order, one of whose keywords is a
substring of the lower-cased transcript, and `none` when nothing matches;
the `retell.ts` resolvers use the same first-match rule over their own
tables but fall back to the default key `other` when nothing matches. -/
theorem categorical_resolution (s : List Char) :
    parseVerticalSelection s = firstMatchKey verticalsTable (trimL (toLowerL s)) ∧
    parsePainSelection s = firstMatchKey painsTable (trimL (toLowerL s)) ∧
    normalizeVertical s =
      (firstMatchKey retellVerticalTable (toLowerL s)).getD "other".data ∧
    normalizePain s =
      (firstMatchKey retellPainTable (toLowerL s)).getD "other".data := by
  refine ⟨lookupTable_eq_firstMatchKey _ _, lookupTable_eq_firstMatchKey _ _, ?_, ?_⟩
  · rw [← lookupTable_eq_firstMatchKey]
    simp only [normalizeVertical, lookupTable, retellVerticalTable, List.any_cons,
      List.any_nil, Bool.or_false]
    split_ifs <;> simp_all
  · rw [← lookupTable_eq_firstMatchKey]
    simp only [normalizePain, lookupTable, retellPainTable, List.any_cons,
      List.any_nil, Bool.or_false]
    split_ifs <;> simp_all

/-- C8 (counterexample): `absolutely` contains a token of the claimed
seven-token affirmation set, yet the `/twilio/schedule` route classifies
it as negative — that route tests only five tokens. -/
theorem twilioSchedule_absolutely_counterexample :
    (∃ t ∈ affirmationTokens, isInfixL t (toLowerL "absolutely".data) = true) ∧
    twilioWantsSchedule "absolutely".data = false := by
  refine ⟨by decide, by decide⟩

/-- C8 (amended): `retell.ts`'s schedule handler classifies a transcript
as affirmative iff it contains one of the seven affirmation tokens, while
the legacy `/twilio/schedule` route uses only the five tokens
`yes`, `yeah`, `sure`, `okay`, `yep`. -/
theorem schedule_affirmation_tokens (s : List Char) :
    (retellIsYes s = true ↔
      ∃ t ∈ affirmationTokens, isInfixL t (toLowerL s) = true) ∧
    (twilioWantsSchedule s = true ↔
      ∃ t ∈ twilioTokens, isInfixL t (toLowerL s) = true) := by
  constructor
  · simp [retellIsYes, List.any_eq_true]
  · simp only [twilioWantsSchedule, twilioTokens]
    constructor
    · intro h
      simp only [Bool.or_eq_true] at h
      rcases h with ((((h | h) | h) | h) | h) <;> simp_all
    · intro ⟨t, ht, hinf⟩
      simp only [Bool.or_eq_true]
      fin_cases ht <;> simp_all

/-- C7 (counterexample): for the empty transcript, `speech-parser.ts`'s
`sanitizeName` returns the empty string, not the `Caller` placeholder
(the falsy-input guard returns `''` before the fallback is reached). -/
theorem sanitizeName_empty_counterexample :
    sanitizeName [] = [] ∧ retellSanitizeName [] = "Caller".data := by
  refine ⟨by decide, by decide⟩

/-- C7 (amended): for every non-empty transcript, `sanitizeName` returns
a non-empty display name of at most 100 characters drawn from
letters/whitespace/apostrophe/hyphen, returning the placeholder `Caller`
exactly when nothing remains after stripping, title-casing and
filtering; the empty transcript returns the empty string (the
`retell.ts` variant returns `Caller` there instead). -/
theorem sanitizeName_total (s : List Char) (h : s ≠ []) :
    sanitizeName s ≠ [] ∧ (sanitizeName s).length ≤ 100 ∧
    (∀ c ∈ sanitizeName s, allowedNameChar c = true) ∧
    (processedName s = [] → sanitizeName s = "Caller".data) := by
  have hne : s.isEmpty = false := by
    cases s with
    | nil => exact absurd rfl h
    | cons c cs => rfl
  unfold sanitizeName
  rw [hne]
  simp only [Bool.false_eq_true, if_false]
  by_cases hp : (processedName s).isEmpty
  · rw [if_pos hp]
    refine ⟨by decide, by decide, by decide, fun _ => rfl⟩
  · rw [if_neg hp]
    refine ⟨?_, ?_, ?_, ?_⟩
    · intro hcon
      exact hp (by simp [hcon])
    · unfold processedName
      simp [List.length_take]
    · intro c hc
      unfold processedName at hc
      have hmem := List.take_subset 100 _ hc
      exact (List.mem_filter.mp hmem).2
    · intro hcon
      exact absurd (by simp [hcon] : (processedName s).isEmpty = true) hp

/-- C7 (witness). -/
theorem sanitizeName_total_witness :
    ("chris".data ≠ []) ∧ sanitizeName "chris".data ≠ [] :=
  ⟨by decide, (sanitizeName_total "chris".data (by decide)).1⟩

/-- C5 (counterexample): on `ten twenty thirty` the compound stage
recovers the five digits `12030` — at least 4 digits are recoverable —
yet `parseSpokenCode` fails, because a compound recovery whose length is
not exactly 4 is discarded rather than truncated to its leading 4. -/
theorem parseSpokenCode_compound_discard_counterexample :
    (parseSpokenCode "ten twenty thirty".data).success = false ∧
    parseCompoundNumbers (spokenNormalize "ten twenty thirty".data) =
      some "12030".data := by
  refine ⟨by decide, by decide⟩

/-- C5 (amended): the leading-4 truncation applies to the digits
recovered by the digit-word-translation stage, and only when the
compound stage did not produce exactly 4 digits; `parseSpokenCode` fails
iff the direct stage does not yield exactly 4 digits, the translation
stage yields fewer than 4, and the compound stage does not yield exactly
4 — so 4 or more digits recoverable only at the compound stage still
fail. -/
theorem parseSpokenCode_stages (s : List Char) :
    ((parseSpokenCode s).success = false ↔
      (directDigitsOf s).length ≠ 4 ∧ (spokenDigits s).length < 4 ∧
        compound4 (spokenNormalize s) = none) ∧
    (4 < (spokenDigits s).length → (directDigitsOf s).length ≠ 4 →
      compound4 (spokenNormalize s) = none →
      (parseSpokenCode s).code = some ((spokenDigits s).take 4)) := by
  cases s with
  | nil => exact ⟨by decide, by decide⟩
  | cons c cs =>
    simp only [parseSpokenCode, List.isEmpty_cons, Bool.false_eq_true, if_false]
    by_cases h1 : (directDigitsOf (c :: cs)).length = 4
    · rw [if_pos h1]
      exact ⟨by simp [h1], fun _ hc => absurd h1 hc⟩
    · rw [if_neg h1]
      by_cases h2 : (spokenDigits (c :: cs)).length = 4
      · rw [if_pos h2]
        exact ⟨by simp [h1, h2], fun hgt _ _ => by omega⟩
      · rw [if_neg h2]
        cases h3 : compound4 (spokenNormalize (c :: cs)) with
        | some cr =>
          exact ⟨by simp, fun _ _ hc => absurd hc (by simp)⟩
        | none =>
          by_cases h4 : 4 < (spokenDigits (c :: cs)).length
          · rw [if_pos h4]
            exact ⟨by simp [Nat.not_lt.mpr (Nat.le_of_lt h4)], fun _ _ _ => rfl⟩
          · rw [if_neg h4]
            exact ⟨iff_of_true rfl ⟨h1, by omega, rfl⟩, fun hgt _ _ => absurd hgt h4⟩

/-- C5 (witness). -/
theorem parseSpokenCode_stages_witness :
    4 < (spokenDigits "one two three four five".data).length ∧
    (parseSpokenCode "one two three four five".data).code = some "1234".data :=
  ⟨by decide,
   ((parseSpokenCode_stages "one two three four five".data).2 (by decide)
     (by decide) (by decide)).trans (by decide)⟩

/-- A compound-stage result is a string of decimal digits of length at
least 4. -/
theorem parseCompoundNumbers_shape {t cr : List Char}
    (h : parseCompoundNumbers t = some cr) :
    cr.all Char.isDigit = true ∧ 4 ≤ cr.length := by
  simp only [parseCompoundNumbers] at h
  split at h
  · obtain rfl := Option.some.inj h
    refine ⟨?_, by assumption⟩
    simp only [List.all_eq_true]
    intro c hc
    exact (List.mem_filter.mp hc).2
  · exact absurd h (by simp)

/-- A `compound4` result is a string of exactly 4 decimal digits. -/
theorem compound4_shape {t cr : List Char} (h : compound4 t = some cr) :
    cr.all Char.isDigit = true ∧ cr.length = 4 := by
  unfold compound4 at h
  split at h
  case _ cr2 h2 =>
    split at h
    · obtain rfl := Option.some.inj h
      exact ⟨(parseCompoundNumbers_shape h2).1, by assumption⟩
    · exact absurd h (by simp)
  case _ => exact absurd h (by simp)

/-- C10: every success path of `parseSpokenCode` returns a code of
exactly 4 characters, each a decimal digit: the direct, translated and
compound codes are digit-filtered strings whose length-4 check guards the
return, and the truncation path takes 4 characters of a digit-filtered
string longer than 4. -/
theorem parseSpokenCode_code_shape (s : List Char)
    (h : (parseSpokenCode s).success = true) :
    ∃ code, (parseSpokenCode s).code = some code ∧ code.length = 4 ∧
      code.all Char.isDigit = true := by
  cases s with
  | nil => simp [parseSpokenCode] at h
  | cons c cs =>
    simp only [parseSpokenCode, List.isEmpty_cons, Bool.false_eq_true, if_false] at h ⊢
    by_cases h1 : (directDigitsOf (c :: cs)).length = 4
    · rw [if_pos h1] at h ⊢
      refine ⟨directDigitsOf (c :: cs), rfl, h1, ?_⟩
      simp only [List.all_eq_true]
      intro x hx
      exact (List.mem_filter.mp hx).2
    · rw [if_neg h1] at h ⊢
      by_cases h2 : (spokenDigits (c :: cs)).length = 4
      · rw [if_pos h2] at h ⊢
        refine ⟨spokenDigits (c :: cs), rfl, h2, ?_⟩
        simp only [List.all_eq_true]
        intro x hx
        exact (List.mem_filter.mp hx).2
      · rw [if_neg h2] at h ⊢
        cases h3 : compound4 (spokenNormalize (c :: cs)) with
        | some cr =>
          exact ⟨cr, rfl, (compound4_shape h3).2, (compound4_shape h3).1⟩
        | none =>
          by_cases h4 : 4 < (spokenDigits (c :: cs)).length
          · rw [if_pos h4] at h ⊢
            refine ⟨(spokenDigits (c :: cs)).take 4, rfl, ?_, ?_⟩
            · simp [List.length_take]
              omega
            · simp only [List.all_eq_true]
              intro x hx
              exact (List.mem_filter.mp (List.take_subset 4 _ hx)).2
          · rw [h3] at h
            simp [h4] at h

/-- C10 (witness). -/
theorem parseSpokenCode_code_shape_witness :
    (parseSpokenCode "4827".data).success = true ∧
    ∃ code, (parseSpokenCode "4827".data).code = some code ∧ code.length = 4 ∧
      code.all Char.isDigit = true :=
  ⟨by decide, parseSpokenCode_code_shape "4827".data (by decide)⟩

/-- C6: `parsePhoneNumber` succeeds exactly when the filler-stripping and
digit-word-translation pipeline leaves at least 10 digits; exactly 10
digits are prefixed `+1`; exactly 11 digits led by `1` are prefixed `+`;
any longer capture keeps the trailing 10 digits prefixed `+1`. -/
theorem parsePhoneNumber_spec (s : List Char) :
    ((parsePhoneNumber s).success = true ↔ 10 ≤ (phoneDigits s).length) ∧
    ((phoneDigits s).length = 10 →
      (parsePhoneNumber s).number = some ('+' :: '1' :: phoneDigits s)) ∧
    ((phoneDigits s).length = 11 → (phoneDigits s).head? = some '1' →
      (parsePhoneNumber s).number = some ('+' :: phoneDigits s)) ∧
    (10 < (phoneDigits s).length →
      ¬((phoneDigits s).length = 11 ∧ (phoneDigits s).head? = some '1') →
      (parsePhoneNumber s).number =
        some ('+' :: '1' :: (phoneDigits s).drop ((phoneDigits s).length - 10))) := by
  cases s with
  | nil => exact ⟨by decide, by decide, by decide, by decide⟩
  | cons c cs =>
    simp only [parsePhoneNumber, List.isEmpty_cons, Bool.false_eq_true, if_false]
    by_cases h10 : (phoneDigits (c :: cs)).length = 10
    · rw [if_pos h10]
      exact ⟨by simp [h10], fun _ => rfl, fun h11 _ => by omega, fun hgt _ => by omega⟩
    · rw [if_neg h10]
      by_cases h11 : (phoneDigits (c :: cs)).length = 11 ∧
          (phoneDigits (c :: cs)).head? = some '1'
      · rw [if_pos h11]
        exact ⟨by simp [h11.1], fun h => absurd h h10,
               fun _ _ => rfl, fun _ hn => absurd h11 hn⟩
      · rw [if_neg h11]
        by_cases hgt : 10 < (phoneDigits (c :: cs)).length
        · rw [if_pos hgt]
          refine ⟨by simp [Nat.le_of_lt hgt], fun h => absurd h h10, ?_, fun _ _ => rfl⟩
          intro ha hb
          exact absurd ⟨ha, hb⟩ h11
        · rw [if_neg hgt]
          refine ⟨?_, fun h => absurd h h10, ?_, fun h => absurd h hgt⟩
          · simp only [Bool.false_eq_true, false_iff]
            omega
          · intro ha _
            omega

/-- C6 (witness). -/
theorem parsePhoneNumber_spec_witness :
    (phoneDigits "four one five five five five one two three four".data).length = 10 ∧
    (parsePhoneNumber "four one five five five five one two three four".data).number =
      some "+14155551234".data :=
  ⟨by decide,
   ((parsePhoneNumber_spec "four one five five five five one two three four".data).2.1
     (by decide)).trans (by decide)⟩

/-- C9: when an unexpired session in a live status already exists for the
browser identity, `createSession` returns that session's id, pairing code
and expiry, and leaves the store unchanged. -/
theorem createSession_idempotent (now expiryMs newId : Nat)
    (draws : List (List Char)) (browserToken : List Char) (store : Store)
    (ex : SessionRec) (h : findActiveByToken now store browserToken = some ex) :
    createSession now expiryMs newId draws browserToken store =
      some ((ex.id, ex.pairCode, ex.expiresAt), store) := by
  unfold createSession
  rw [h]

/-- C9 (witness). -/
theorem createSession_idempotent_witness :
    findActiveByToken 0
        ⟨[⟨1, "tok".data, "4827".data, .CREATED, 1000, none, none, none, none⟩], []⟩
        "tok".data =
      some ⟨1, "tok".data, "4827".data, .CREATED, 1000, none, none, none, none⟩ ∧
    createSession 0 600000 2 ["1111".data] "tok".data
        ⟨[⟨1, "tok".data, "4827".data, .CREATED, 1000, none, none, none, none⟩], []⟩ =
      some ((1, "4827".data, 1000),
        ⟨[⟨1, "tok".data, "4827".data, .CREATED, 1000, none, none, none, none⟩], []⟩) :=
  ⟨by decide,
   createSession_idempotent 0 600000 2 ["1111".data] "tok".data
     ⟨[⟨1, "tok".data, "4827".data, .CREATED, 1000, none, none, none, none⟩], []⟩
     ⟨1, "tok".data, "4827".data, .CREATED, 1000, none, none, none, none⟩ (by decide)⟩

/-- C2 (counterexample): two concurrent `findSessionByCode` + `pairSession`
attempts against the same code, interleaved so that both lookups precede
both updates, BOTH succeed — `pairSession`'s update is keyed on the
session id alone, not conditioned on the session still being `CREATED`,
so pairing is not exclusive. -/
theorem pairing_race_counterexample :
    (runRace 0 1800000 "4827".data
        ⟨"+15550001111".data, "Al".data, "CA1".data⟩
        ⟨"+15550002222".data, "Bo".data, "CB2".data⟩
        ⟨[⟨1, "tok".data, "4827".data, .CREATED, 600000, none, none, none, none⟩], []⟩
        [.findA, .findB, .pairA, .pairB]).aPaired = true ∧
    (runRace 0 1800000 "4827".data
        ⟨"+15550001111".data, "Al".data, "CA1".data⟩
        ⟨"+15550002222".data, "Bo".data, "CB2".data⟩
        ⟨[⟨1, "tok".data, "4827".data, .CREATED, 600000, none, none, none, none⟩], []⟩
        [.findA, .findB, .pairA, .pairB]).bPaired = true := by
  refine ⟨by decide, by decide⟩

/-- C2 (amended): pairing is exclusive only across serialized attempts —
when one attempt's `pairSession` completes before the other's
`findSessionByCode`, the later lookup observes the session as no longer
`CREATED` and fails, so exactly one attempt succeeds; but in the fully
interleaved schedule (both lookups before both updates) both attempts
succeed, because `pairSession` performs an unconditional update keyed on
the session id. -/
theorem pairing_race (sess : SessionRec) (now pairedExpiryMs : Nat)
    (code : List Char) (a b : CallerInfo)
    (hstatus : sess.status = .CREATED) (hexp : now < sess.expiresAt)
    (hcode : sess.pairCode = code) :
    ((runRace now pairedExpiryMs code a b ⟨[sess], []⟩
        [.findA, .pairA, .findB, .pairB]).aPaired = true ∧
     (runRace now pairedExpiryMs code a b ⟨[sess], []⟩
        [.findA, .pairA, .findB, .pairB]).bPaired = false) ∧
    ((runRace now pairedExpiryMs code a b ⟨[sess], []⟩
        [.findA, .findB, .pairA, .pairB]).aPaired = true ∧
     (runRace now pairedExpiryMs code a b ⟨[sess], []⟩
        [.findA, .findB, .pairA, .pairB]).bPaired = true) := by
  subst hcode
  have hd : decide (now < sess.expiresAt) = true := decide_eq_true hexp
  simp [runRace, raceStep, findSessionByCode, pairSession, List.find?,
    hstatus, hd, List.foldl]

/-- C2 (witness). -/
theorem pairing_race_witness :
    (⟨1, "tok".data, "4827".data, .CREATED, 600000, none, none, none,
      none⟩ : SessionRec).status = .CREATED ∧
    (runRace 0 1800000 "4827".data
        ⟨"+15550001111".data, "Al".data, "CA1".data⟩
        ⟨"+15550002222".data, "Bo".data, "CB2".data⟩
        ⟨[⟨1, "tok".data, "4827".data, .CREATED, 600000, none, none, none, none⟩], []⟩
        [.findA, .pairA, .findB, .pairB]).aPaired = true ∧
    (runRace 0 1800000 "4827".data
        ⟨"+15550001111".data, "Al".data, "CA1".data⟩
        ⟨"+15550002222".data, "Bo".data, "CB2".data⟩
        ⟨[⟨1, "tok".data, "4827".data, .CREATED, 600000, none, none, none, none⟩], []⟩
        [.findA, .pairA, .findB, .pairB]).bPaired = false :=
  ⟨rfl,
   (pairing_race ⟨1, "tok".data, "4827".data, .CREATED, 600000, none, none, none, none⟩
     0 1800000 "4827".data
     ⟨"+15550001111".data, "Al".data, "CA1".data⟩
     ⟨"+15550002222".data, "Bo".data, "CB2".data⟩ rfl (by decide) rfl).1⟩

/-- While the counter stays below the maximum, each `recordFailedAttempt`
just increments it and stamps the attempt time. -/
theorem afterFailedAttempts_under (maxAttempts lockoutSeconds : Nat) :
    ∀ (ts : List Nat) (k a : Nat), k + ts.length < maxAttempts →
      afterFailedAttempts maxAttempts lockoutSeconds ts (some ⟨k, a, none⟩) =
        some ⟨k + ts.length, ts.getLastD a, none⟩ := by
  intro ts
  induction ts with
  | nil => intro k a _; simp [afterFailedAttempts]
  | cons t ts ih =>
    intro k a h
    simp only [List.length_cons] at h
    have hk : ¬ maxAttempts ≤ k + 1 := by omega
    simp only [afterFailedAttempts, List.foldl_cons] at ih ⊢
    rw [show (recordFailedAttempt maxAttempts lockoutSeconds t (some ⟨k, a, none⟩)).2 =
        some ⟨k + 1, t, none⟩ by simp [recordFailedAttempt, hk]]
    rw [ih (k + 1) t (by omega)]
    simp only [List.getLastD_cons, List.length_cons, Option.some.injEq,
      RateRec.mk.injEq, and_true, true_and]
    omega

/-- After exactly `maxAttempts` failures (the last at time `tk`), the row
records `maxAttempts` failures and a lockout until `tk + lockoutSeconds`
(in milliseconds). -/
theorem afterFailedAttempts_full (maxAttempts lockoutSeconds : Nat)
    (ts : List Nat) (tk : Nat) (h : ts.length + 1 = maxAttempts) :
    afterFailedAttempts maxAttempts lockoutSeconds (ts ++ [tk]) none =
      some ⟨maxAttempts, tk, some (tk + lockoutSeconds * 1000)⟩ := by
  cases ts with
  | nil =>
    simp only [List.length_nil] at h
    subst h
    simp [afterFailedAttempts, recordFailedAttempt]
  | cons t ts =>
    simp only [List.length_cons] at h
    have h1 : ¬ maxAttempts ≤ 1 := by omega
    simp only [afterFailedAttempts, List.cons_append, List.foldl_cons]
    rw [show (recordFailedAttempt maxAttempts lockoutSeconds t none).2 =
        some ⟨1, t, none⟩ by simp [recordFailedAttempt, h1]]
    rw [List.foldl_append]
    have hu := afterFailedAttempts_under maxAttempts lockoutSeconds ts 1 t (by omega)
    simp only [afterFailedAttempts] at hu
    rw [hu]
    have hmax : maxAttempts ≤ 1 + ts.length + 1 := by omega
    simp only [List.foldl_cons, List.foldl_nil]
    rw [show (recordFailedAttempt maxAttempts lockoutSeconds tk
        (some ⟨1 + ts.length, ts.getLastD t, none⟩)).2 =
        some ⟨1 + ts.length + 1, tk, some (tk + lockoutSeconds * 1000)⟩ by
      simp [recordFailedAttempt, hmax]]
    simp only [Option.some.injEq, RateRec.mk.injEq, and_true, true_and]
    omega

/-- C3: starting from no rate-limit row, after exactly `maxAttempts`
`recordFailedAttempt` calls (the last at time `tk`), any `checkRateLimit`
before `tk + lockoutSeconds·1000` is refused and reports that lockout
expiry (strictly in the future of the check), and the first
`checkRateLimit` at or after the expiry answers allowed with the full
budget and lazily resets the failure counter to zero. -/
theorem rateLimiter_lockout (maxAttempts lockoutSeconds : Nat) (ts : List Nat)
    (tk t1 t2 : Nat) (hlen : ts.length + 1 = maxAttempts)
    (h1 : t1 < tk + lockoutSeconds * 1000)
    (h2 : tk + lockoutSeconds * 1000 ≤ t2) :
    ((checkRateLimit maxAttempts t1
        (afterFailedAttempts maxAttempts lockoutSeconds (ts ++ [tk]) none)).1 =
      ⟨false, none, some (tk + lockoutSeconds * 1000)⟩ ∧
     t1 < tk + lockoutSeconds * 1000) ∧
    ((checkRateLimit maxAttempts t2
        (afterFailedAttempts maxAttempts lockoutSeconds (ts ++ [tk]) none)).1 =
      ⟨true, some (maxAttempts : Int), none⟩ ∧
     (checkRateLimit maxAttempts t2
        (afterFailedAttempts maxAttempts lockoutSeconds (ts ++ [tk]) none)).2 =
      some ⟨0, tk, none⟩) := by
  rw [afterFailedAttempts_full maxAttempts lockoutSeconds ts tk hlen]
  refine ⟨⟨?_, h1⟩, ?_, ?_⟩
  · simp [checkRateLimit, h1]
  · simp [checkRateLimit, Nat.not_lt.mpr h2]
  · simp [checkRateLimit, Nat.not_lt.mpr h2]

/-- C3 (witness). -/
theorem rateLimiter_lockout_witness :
    (([5, 7] : List Nat).length + 1 = 3 ∧ (10 : Nat) < 9 + 60 * 1000 ∧
      9 + 60 * 1000 ≤ (70000 : Nat)) ∧
    (checkRateLimit 3 10 (afterFailedAttempts 3 60 ([5, 7] ++ [9]) none)).1 =
      ⟨false, none, some (9 + 60 * 1000)⟩ ∧
    (checkRateLimit 3 70000 (afterFailedAttempts 3 60 ([5, 7] ++ [9]) none)).2 =
      some ⟨0, 9, none⟩ :=
  ⟨⟨by decide, by decide, by decide⟩,
   ((rateLimiter_lockout 3 60 [5, 7] 9 10 70000 (by decide) (by decide)
      (by decide)).1).1,
   ((rateLimiter_lockout 3 60 [5, 7] 9 10 70000 (by decide) (by decide)
      (by decide)).2).2⟩
